import Mathlib

/-!
Verification of the soda request-binding pipeline.

The Go sources (`operation.go`, `const.go`) register routes on a host
router.  `SetInput` records the input struct type and its body field,
`OK` validates the operation and the whole document before adding the
route, and `bindInput` produces the per-request pre-handler that binds
parameters, decodes the body, runs structural validation and the two
optional self-validation hooks, stores the input under `KeyInput` and
finally calls the next handler.

The embedding below models the reflective type values with `GoType`,
the builder state with `Op`, and the request-time pipeline as a pure
function from the outcomes of the external collaborators (parameter
decoding, body decoding, validation engine, the two hooks) to a trace
of observable events plus an optional error, mirroring the control
flow of `bindInput` statement by statement.
-/

namespace Soda

/-- One struct field as seen by reflection: its name, the value of its
`body` tag (empty when absent) and the name of its type. -/
structure StructField where
  name : String
  bodyTag : String
  typeName : String
deriving DecidableEq

/-- The fragment of Go's reflective types that `SetInput` inspects:
pointers, structs (with their field list), and every other kind. -/
inductive GoType where
  | ptr : GoType → GoType
  | structT : List StructField → GoType
  | other : String → GoType
deriving DecidableEq

/-- The dereferencing loop of `SetInput` (`for inputType.Kind() == reflect.Ptr`). -/
def derefPtr : GoType → GoType
  | GoType.ptr t => derefPtr t
  | GoType.structT fs => GoType.structT fs
  | GoType.other s => GoType.other s

/-- Whether a type's kind is `reflect.Struct`. -/
def isStructKind : GoType → Bool
  | GoType.structT _ => true
  | _ => false

/-- The builder state relevant to binding: the fields `input`,
`inputBody`, `inputBodyMediaType`, `inputBodyField` of
`OperationBuilder`, plus three capabilities resolved at request time in
Go (`op.soda.validator != nil` and the two interface assertions on the
input instance), which depend only on configuration and the input type
and are therefore recorded here. -/
structure Op where
  input : Option GoType
  inputBody : Option String
  inputBodyMediaType : String
  inputBodyField : String
  hasValidator : Bool
  implValidate : Bool
  implValidateCtx : Bool
deriving DecidableEq

/-- The field-scanning loop of `SetInput`: the first field whose `body`
tag is non-empty (the loop breaks at the first hit). -/
def findBodyField : List StructField → Option StructField
  | [] => none
  | f :: rest => if f.bodyTag ≠ "" then some f else findBodyField rest

/-- `SetInput` from `operation.go`: dereference pointers, panic when the
result is not a struct (modelled as `Except.error`), record the struct
as the input type, and record the first body-tagged field (if any) as
the body field.  The calls into the schema generator only touch the
OpenAPI document and are not modelled. -/
def SetInput (op : Op) (input : GoType) : Except String Op :=
  match derefPtr input with
  | GoType.structT fields =>
    let op1 : Op := { op with input := some (GoType.structT fields) }
    match findBodyField fields with
    | some f =>
      Except.ok { op1 with
        inputBody := some f.typeName
        inputBodyMediaType := f.bodyTag
        inputBodyField := f.name }
    | none => Except.ok op1
  | _ => Except.error "input must be a pointer to a struct"

/-- Whether a `SetInput` call returned normally (no panic). -/
def setInputOk : Except String Op → Bool
  | Except.ok _ => true
  | Except.error _ => false

/-- The request-storage key `KeyInput` from `const.go`. -/
def KeyInput : String := "soda::input"

/-- Observable events of one run of the `bindInput` handler. -/
inductive Event where
  | allocInput
  | runParser (i : Nat)
  | decodeBody
  | setBodyField (name : String)
  | runValidator
  | runValidate
  | runValidateCtx
  | storeLocal (key : String)
  | callNext
deriving DecidableEq

/-- Outcomes of the external collaborators for one request: the result
of each registered parameter decoder (in order), of `c.BodyParser`, of
`validator.Struct`, and of the two self-validation hooks.  `none`
means success. -/
structure BindCtx where
  parserResults : List (Option String)
  bodyResult : Option String
  validatorResult : Option String
  validateResult : Option String
  validateCtxResult : Option String
deriving DecidableEq

/-- Sequencing of two pipeline stages: the Go code returns the first
error immediately, so the second stage contributes events and a result
only when the first succeeded. -/
def seqStage (a b : List Event × Option String) : List Event × Option String :=
  match a.2 with
  | some e => (a.1, some e)
  | none => (a.1 ++ b.1, b.2)

/-- The loop `for _, parser := range parameterParsers` of `bindInput`:
run each decoder in order, stopping at the first error.  The index
argument records the absolute position of the next decoder. -/
def runParsersAux : List (Option String) → Nat → List Event × Option String
  | [], _ => ([], none)
  | none :: rest, i =>
    let r := runParsersAux rest (i + 1)
    (Event.runParser i :: r.1, r.2)
  | some e :: _, i => ([Event.runParser i], some e)

/-- The body-binding stage of `bindInput`: guarded by
`op.inputBodyField != ""`; decodes the payload and, on success, assigns
the decoded value to exactly the designated field. -/
def bodyStage (op : Op) (env : BindCtx) : List Event × Option String :=
  if op.inputBodyField = "" then ([], none)
  else
    match env.bodyResult with
    | some e => ([Event.decodeBody], some e)
    | none => ([Event.decodeBody, Event.setBodyField op.inputBodyField], none)

/-- The structural-validation stage: guarded by `op.soda.validator != nil`. -/
def validatorStage (op : Op) (env : BindCtx) : List Event × Option String :=
  if op.hasValidator then ([Event.runValidator], env.validatorResult)
  else ([], none)

/-- The context-free self-validation hook stage: guarded by the
interface assertion `input.(customizeValidate)`. -/
def validateStage (op : Op) (env : BindCtx) : List Event × Option String :=
  if op.implValidate then ([Event.runValidate], env.validateResult)
  else ([], none)

/-- The context-aware self-validation hook stage: guarded by the
interface assertion `input.(customizeValidateCtx)`. -/
def validateCtxStage (op : Op) (env : BindCtx) : List Event × Option String :=
  if op.implValidateCtx then ([Event.runValidateCtx], env.validateCtxResult)
  else ([], none)

/-- The success epilogue of `bindInput`: `c.Locals(KeyInput, input)`
followed by `return c.Next()`. -/
def finalStage : List Event × Option String :=
  ([Event.storeLocal KeyInput, Event.callNext], none)

/-- The stages of `bindInput` after parameter binding, in source order. -/
def tailStages (op : Op) (env : BindCtx) : List Event × Option String :=
  seqStage (bodyStage op env)
    (seqStage (validatorStage op env)
      (seqStage (validateStage op env)
        (seqStage (validateCtxStage op env) finalStage)))

/-- Everything `bindInput` does after allocating the input instance. -/
def pipelineAfterAlloc (op : Op) (env : BindCtx) : List Event × Option String :=
  seqStage (runParsersAux env.parserResults 0) (tailStages op env)

/-- The `bindInput` handler of `operation.go`: when no input type was
registered it immediately calls the next handler; otherwise it
allocates a fresh instance and runs the pipeline. -/
def bindInput (op : Op) (env : BindCtx) : List Event × Option String :=
  match op.input with
  | none => ([Event.callNext], none)
  | some _ =>
    (Event.allocInput :: (pipelineAfterAlloc op env).1,
      (pipelineAfterAlloc op env).2)

/-- Position of an event's stage in the fixed pipeline order of
`bindInput`. -/
def stageOf : Event → Nat
  | Event.allocInput => 0
  | Event.runParser _ => 1
  | Event.decodeBody => 2
  | Event.setBodyField _ => 2
  | Event.runValidator => 3
  | Event.runValidate => 4
  | Event.runValidateCtx => 5
  | Event.storeLocal _ => 6
  | Event.callNext => 7

/-- The error that the collaborator behind an event produced for this
request, if any. -/
def errOf (env : BindCtx) : Event → Option String
  | Event.runParser j => env.parserResults.getD j none
  | Event.decodeBody => env.bodyResult
  | Event.runValidator => env.validatorResult
  | Event.runValidate => env.validateResult
  | Event.runValidateCtx => env.validateCtxResult
  | _ => none

/-- Stage-correctness of a pipeline fragment: all its events lie in the
stage interval, and when it fails the reported error belongs to an
event it actually ran and no event of a later stage ran. -/
def StageOK (env : BindCtx) (lo hi : Nat) (s : List Event × Option String) : Prop :=
  (∀ ev ∈ s.1, lo ≤ stageOf ev ∧ stageOf ev ≤ hi) ∧
  ∀ e, s.2 = some e →
    ∃ ev, ev ∈ s.1 ∧ errOf env ev = some e ∧ ∀ ev2 ∈ s.1, stageOf ev2 ≤ stageOf ev

/-- Ordering of two occurrences inside a list. -/
def Before {α : Type} (x y : α) (l : List α) : Prop :=
  ∃ l1 l2 l3, l = l1 ++ x :: l2 ++ y :: l3

/-- Handlers of the route finally registered on the router: the
binding pre-handler and the user-supplied handlers. -/
inductive Handler where
  | bindH
  | user (i : Nat)
deriving DecidableEq

/-- Observable events of one run of `OK`. -/
inductive OkEvent where
  | addDefaultResponse
  | validateOperation
  | addOperationToSpec
  | validateSpec
  | addRoute
deriving DecidableEq

/-- Outcome of `OK`: either the process halts (`log.Fatalln`) or the
route is registered with the given handler chain. -/
inductive OkResult where
  | fatal (e : String)
  | served (hs : List Handler)
deriving DecidableEq

/-- Outcomes of the collaborators of `OK`: whether `operation.Responses`
is still nil, and the results of `operation.Validate` and
`spec.Validate`. -/
structure OkEnv where
  responsesNil : Bool
  opValidateErr : Option String
  specValidateErr : Option String
deriving DecidableEq

/-- The `OK` finalizer of `operation.go`: add a default response if
none exists, validate the operation (fatal on error), add the
operation to the spec, validate the whole spec (fatal on error), then
prepend the binding handler and add the route to the router. -/
def okRun (userHandlers : List Nat) (env : OkEnv) : List OkEvent × OkResult :=
  let evs0 : List OkEvent :=
    if env.responsesNil then [OkEvent.addDefaultResponse] else []
  match env.opValidateErr with
  | some e => (evs0 ++ [OkEvent.validateOperation], OkResult.fatal e)
  | none =>
    match env.specValidateErr with
    | some e =>
      (evs0 ++ [OkEvent.validateOperation, OkEvent.addOperationToSpec,
        OkEvent.validateSpec], OkResult.fatal e)
    | none =>
      (evs0 ++ [OkEvent.validateOperation, OkEvent.addOperationToSpec,
        OkEvent.validateSpec, OkEvent.addRoute],
        OkResult.served (Handler.bindH :: userHandlers.map Handler.user))

/-- Characters kept by the schema-name regular expression of
`const.go`: the complement of the class `[^a-zA-Z0-9._-]`. -/
def isSchemaNameChar (c : Char) : Bool :=
  c.isAlphanum || c == '.' || c == '_' || c == '-'

/-- Modelled from the spec: the schema-name sanitizer applies
`regexSchemaName` (declared in `const.go`) to strip every character
matching `[^a-zA-Z0-9._-]` from a type's declared name; the stripping
call site lives in the generator, outside the files at hand. -/
def sanitizeSchemaName (s : String) : String :=
  String.mk (s.data.filter isSchemaNameChar)

/-- A builder with no input type and no body field. -/
def opEmpty : Op :=
  { input := none, inputBody := none, inputBodyMediaType := ""
    inputBodyField := "", hasValidator := false
    implValidate := false, implValidateCtx := false }

/-- A builder with a registered (empty) input struct and no body field. -/
def opIn : Op :=
  { input := some (GoType.structT []), inputBody := none
    inputBodyMediaType := "", inputBodyField := "", hasValidator := false
    implValidate := false, implValidateCtx := false }

/-- A builder whose input type implements both self-validation hooks. -/
def opHooks : Op :=
  { input := some (GoType.structT []), inputBody := none
    inputBodyMediaType := "", inputBodyField := "", hasValidator := true
    implValidate := true, implValidateCtx := true }

/-- A builder with a structural validator configured. -/
def opVal : Op :=
  { input := some (GoType.structT []), inputBody := none
    inputBodyMediaType := "", inputBodyField := "", hasValidator := true
    implValidate := false, implValidateCtx := false }

/-- A builder whose input declares a body field named B. -/
def opBody : Op :=
  { input := some (GoType.structT [⟨"B", "json", "TB"⟩]), inputBody := some "TB"
    inputBodyMediaType := "json", inputBodyField := "B", hasValidator := false
    implValidate := false, implValidateCtx := false }

/-- A request on which every collaborator succeeds and there are no
registered parameter decoders. -/
def envAllOk : BindCtx :=
  { parserResults := [], bodyResult := none, validatorResult := none
    validateResult := none, validateCtxResult := none }

/-- A request whose first parameter decoder fails. -/
def envPerr : BindCtx :=
  { parserResults := [some "boom"], bodyResult := none, validatorResult := none
    validateResult := none, validateCtxResult := none }

/-- A finalization environment where both structural checks pass. -/
def envOkBoth : OkEnv :=
  { responsesNil := true, opValidateErr := none, specValidateErr := none }

/-- Two fields both carrying a non-empty body marker. -/
def twoBodyFields : List StructField :=
  [⟨"A", "json", "TA"⟩, ⟨"B", "xml", "TB"⟩]

/-! ## Helper lemmas -/

/-- Sequencing after a failing stage keeps its events and its error. -/
theorem seqStage_err {a b : List Event × Option String} {e : String}
    (h : a.2 = some e) : seqStage a b = (a.1, some e) := by
  simp [seqStage, h]

/-- Sequencing after a successful stage appends the next stage. -/
theorem seqStage_ok {a b : List Event × Option String}
    (h : a.2 = none) : seqStage a b = (a.1 ++ b.1, b.2) := by
  simp [seqStage, h]

/-- A successful sequence means both halves succeeded. -/
theorem seqStage_none {a b : List Event × Option String}
    (h : (seqStage a b).2 = none) : a.2 = none ∧ b.2 = none := by
  cases ha : a.2 with
  | some e => rw [seqStage_err ha] at h; simp at h
  | none => rw [seqStage_ok ha] at h; exact ⟨rfl, h⟩

/-- Events of a sequence come from one of its halves. -/
theorem mem_seqStage {a b : List Event × Option String} {ev : Event}
    (h : ev ∈ (seqStage a b).1) : ev ∈ a.1 ∨ ev ∈ b.1 := by
  cases ha : a.2 with
  | some e => rw [seqStage_err ha] at h; exact Or.inl h
  | none => rw [seqStage_ok ha] at h; exact List.mem_append.mp h

/-- The parameter-binding loop only emits parameter-decoder events. -/
theorem runParsersAux_mem : ∀ (rs : List (Option String)) (i : Nat) (ev : Event),
    ev ∈ (runParsersAux rs i).1 → ∃ j, ev = Event.runParser j := by
  intro rs
  induction rs with
  | nil => intro i ev h; simp [runParsersAux] at h
  | cons x rest ih =>
    intro i ev h
    cases x with
    | none =>
      simp only [runParsersAux] at h
      rcases List.mem_cons.mp h with h | h
      · exact ⟨i, h⟩
      · exact ih (i + 1) ev h
    | some e =>
      simp [runParsersAux] at h
      exact ⟨i, h⟩

/-- Stage-correctness of the parameter-binding loop: its events sit at
stage 1, and a failure reports the error of a decoder that ran. -/
theorem runParsersAux_stageOK (env : BindCtx) :
    ∀ (rs : List (Option String)) (i : Nat),
    (∀ j, rs.getD j none = env.parserResults.getD (i + j) none) →
    StageOK env 1 1 (runParsersAux rs i) := by
  intro rs
  induction rs with
  | nil =>
    intro i _
    constructor
    · intro ev h; simp [runParsersAux] at h
    · intro e h; simp [runParsersAux] at h
  | cons x rest ih =>
    intro i hlink
    cases x with
    | none =>
      have hrest : ∀ j, rest.getD j none = env.parserResults.getD (i + 1 + j) none := by
        intro j
        have h1 := hlink (j + 1)
        rw [List.getD_cons_succ] at h1
        have h2 : i + (j + 1) = i + 1 + j := by omega
        rw [h2] at h1
        exact h1
      obtain ⟨ihMem, ihErr⟩ := ih (i + 1) hrest
      constructor
      · intro ev h
        simp only [runParsersAux] at h
        rcases List.mem_cons.mp h with h | h
        · subst h; exact ⟨Nat.le_refl 1, Nat.le_refl 1⟩
        · exact ihMem ev h
      · intro e h
        simp only [runParsersAux] at h
        obtain ⟨ev, hmem, herr, hmax⟩ := ihErr e h
        refine ⟨ev, ?_, herr, ?_⟩
        · simp only [runParsersAux]
          exact List.mem_cons_of_mem _ hmem
        · intro ev2 h2
          simp only [runParsersAux] at h2
          rcases List.mem_cons.mp h2 with h2 | h2
          · subst h2
            obtain ⟨j, hj⟩ := runParsersAux_mem rest (i + 1) ev hmem
            subst hj
            exact Nat.le_refl 1
          · exact hmax ev2 h2
    | some e =>
      constructor
      · intro ev h
        simp [runParsersAux] at h
        subst h; exact ⟨Nat.le_refl 1, Nat.le_refl 1⟩
      · intro e' h
        simp [runParsersAux] at h
        refine ⟨Event.runParser i, by simp [runParsersAux], ?_, ?_⟩
        · have h0 := hlink 0
          rw [List.getD_cons_zero, Nat.add_zero] at h0
          simp only [errOf]
          rw [← h0, h]
        · intro ev2 h2
          simp [runParsersAux] at h2
          subst h2; exact Nat.le_refl 1

/-- Stage-correctness of a stage that emits no event and succeeds. -/
theorem stageOK_of_none (env : BindCtx) {lo hi : Nat} (evs : List Event)
    (hst : ∀ ev ∈ evs, lo ≤ stageOf ev ∧ stageOf ev ≤ hi) :
    StageOK env lo hi (evs, none) := by
  refine ⟨hst, ?_⟩
  intro e h
  simp at h

/-- Stage-correctness of a single-event stage whose result is the
collaborator outcome attached to that event. -/
theorem stageOK_single (env : BindCtx) {lo hi : Nat} (ev : Event) (r : Option String)
    (h1 : lo ≤ stageOf ev) (h2 : stageOf ev ≤ hi)
    (herr : ∀ e, r = some e → errOf env ev = some e) :
    StageOK env lo hi ([ev], r) := by
  constructor
  · intro ev2 hm
    simp at hm
    subst hm
    exact ⟨h1, h2⟩
  · intro e h
    refine ⟨ev, by simp, herr e h, ?_⟩
    intro ev2 hm
    simp at hm
    subst hm
    exact Nat.le_refl _

/-- Composition of stage-correct fragments over adjacent stage windows. -/
theorem stageOK_seq {env : BindCtx} {lo1 hi1 lo2 hi2 : Nat}
    {a b : List Event × Option String}
    (h1 : StageOK env lo1 hi1 a) (h2 : StageOK env lo2 hi2 b)
    (h12 : hi1 ≤ lo2) (hlo : lo1 ≤ lo2) (hhi : hi1 ≤ hi2) :
    StageOK env lo1 hi2 (seqStage a b) := by
  obtain ⟨m1, e1⟩ := h1
  obtain ⟨m2, e2⟩ := h2
  cases ha : a.2 with
  | some e =>
    rw [seqStage_err ha]
    constructor
    · intro ev h
      obtain ⟨hl, hr⟩ := m1 ev h
      exact ⟨hl, Nat.le_trans hr hhi⟩
    · intro e' h
      have he : e = e' := by simpa using h
      obtain ⟨ev, hmem, herr, hmax⟩ := e1 e' (by rw [ha, he])
      exact ⟨ev, hmem, herr, hmax⟩
  | none =>
    rw [seqStage_ok ha]
    constructor
    · intro ev h
      rcases List.mem_append.mp h with h | h
      · obtain ⟨hl, hr⟩ := m1 ev h
        exact ⟨hl, Nat.le_trans hr hhi⟩
      · obtain ⟨hl, hr⟩ := m2 ev h
        exact ⟨Nat.le_trans hlo hl, hr⟩
    · intro e h
      obtain ⟨ev, hmem, herr, hmax⟩ := e2 e h
      refine ⟨ev, List.mem_append.mpr (Or.inr hmem), herr, ?_⟩
      intro ev2 h2'
      rcases List.mem_append.mp h2' with h2' | h2'
      · exact Nat.le_trans (m1 ev2 h2').2 (Nat.le_trans h12 (m2 ev hmem).1)
      · exact hmax ev2 h2'

/-- Stage-correctness of the body-binding stage. -/
theorem bodyStage_stageOK (op : Op) (env : BindCtx) :
    StageOK env 2 2 (bodyStage op env) := by
  by_cases hf : op.inputBodyField = ""
  · rw [bodyStage, if_pos hf]
    exact stageOK_of_none env [] (by intro ev h; simp at h)
  · rw [bodyStage, if_neg hf]
    cases hb : env.bodyResult with
    | some e =>
      exact stageOK_single env Event.decodeBody (some e) (Nat.le_refl 2)
        (Nat.le_refl 2) (fun e' h => by simp [errOf, hb]; simpa using h)
    | none =>
      refine stageOK_of_none env _ ?_
      intro ev h
      rcases List.mem_cons.mp h with h | h
      · subst h; exact ⟨Nat.le_refl 2, Nat.le_refl 2⟩
      · simp at h; subst h; exact ⟨Nat.le_refl 2, Nat.le_refl 2⟩

/-- Stage-correctness of the structural-validation stage. -/
theorem validatorStage_stageOK (op : Op) (env : BindCtx) :
    StageOK env 3 3 (validatorStage op env) := by
  cases hv : op.hasValidator with
  | false =>
    rw [validatorStage, if_neg (by simp [hv])]
    exact stageOK_of_none env [] (by intro ev h; simp at h)
  | true =>
    rw [validatorStage, if_pos (by simp [hv])]
    exact stageOK_single env Event.runValidator env.validatorResult
      (Nat.le_refl 3) (Nat.le_refl 3) (fun e h => by simpa [errOf] using h)

/-- Stage-correctness of the context-free hook stage. -/
theorem validateStage_stageOK (op : Op) (env : BindCtx) :
    StageOK env 4 4 (validateStage op env) := by
  cases hv : op.implValidate with
  | false =>
    rw [validateStage, if_neg (by simp [hv])]
    exact stageOK_of_none env [] (by intro ev h; simp at h)
  | true =>
    rw [validateStage, if_pos (by simp [hv])]
    exact stageOK_single env Event.runValidate env.validateResult
      (Nat.le_refl 4) (Nat.le_refl 4) (fun e h => by simpa [errOf] using h)

/-- Stage-correctness of the context-aware hook stage. -/
theorem validateCtxStage_stageOK (op : Op) (env : BindCtx) :
    StageOK env 5 5 (validateCtxStage op env) := by
  cases hv : op.implValidateCtx with
  | false =>
    rw [validateCtxStage, if_neg (by simp [hv])]
    exact stageOK_of_none env [] (by intro ev h; simp at h)
  | true =>
    rw [validateCtxStage, if_pos (by simp [hv])]
    exact stageOK_single env Event.runValidateCtx env.validateCtxResult
      (Nat.le_refl 5) (Nat.le_refl 5) (fun e h => by simpa [errOf] using h)

/-- Stage-correctness of the success epilogue. -/
theorem finalStage_stageOK (env : BindCtx) : StageOK env 6 7 finalStage := by
  refine stageOK_of_none env _ ?_
  intro ev h
  rcases List.mem_cons.mp h with h | h
  · subst h; exact ⟨Nat.le_refl 6, by simp [stageOf]⟩
  · simp at h; subst h; exact ⟨by simp [stageOf], Nat.le_refl 7⟩

/-- Stage-correctness of the whole pipeline after allocation. -/
theorem pipelineAfterAlloc_stageOK (op : Op) (env : BindCtx) :
    StageOK env 1 7 (pipelineAfterAlloc op env) := by
  have hp : StageOK env 1 1 (runParsersAux env.parserResults 0) :=
    runParsersAux_stageOK env env.parserResults 0 (by intro j; simp)
  have h5 : StageOK env 5 7 (seqStage (validateCtxStage op env) finalStage) :=
    stageOK_seq (validateCtxStage_stageOK op env) (finalStage_stageOK env)
      (by omega) (by omega) (by omega)
  have h4 : StageOK env 4 7 (seqStage (validateStage op env)
      (seqStage (validateCtxStage op env) finalStage)) :=
    stageOK_seq (validateStage_stageOK op env) h5 (by omega) (by omega) (by omega)
  have h3 : StageOK env 3 7 (seqStage (validatorStage op env) (seqStage (validateStage op env)
      (seqStage (validateCtxStage op env) finalStage))) :=
    stageOK_seq (validatorStage_stageOK op env) h4 (by omega) (by omega) (by omega)
  have h2 : StageOK env 2 7 (tailStages op env) :=
    stageOK_seq (bodyStage_stageOK op env) h3 (by omega) (by omega) (by omega)
  exact stageOK_seq hp h2 (by omega) (by omega) (by omega)

/-- An event that can carry a collaborator error sits strictly between
allocation and the success epilogue. -/
theorem errOf_stage_bounds {env : BindCtx} {ev : Event} {e : String}
    (h : errOf env ev = some e) : 1 ≤ stageOf ev ∧ stageOf ev ≤ 5 := by
  cases ev with
  | allocInput => simp [errOf] at h
  | runParser j => exact ⟨Nat.le_refl 1, by simp [stageOf]⟩
  | decodeBody => exact ⟨by simp [stageOf], by simp [stageOf]⟩
  | setBodyField f => simp [errOf] at h
  | runValidator => exact ⟨by simp [stageOf], by simp [stageOf]⟩
  | runValidate => exact ⟨by simp [stageOf], by simp [stageOf]⟩
  | runValidateCtx => exact ⟨by simp [stageOf], Nat.le_refl 5⟩
  | storeLocal k => simp [errOf] at h
  | callNext => simp [errOf] at h

/-- Events of the body stage: it runs only when a body field is
declared, and it only decodes and assigns that very field. -/
theorem bodyStage_mem {op : Op} {env : BindCtx} {ev : Event}
    (h : ev ∈ (bodyStage op env).1) :
    op.inputBodyField ≠ "" ∧
      (ev = Event.decodeBody ∨ ev = Event.setBodyField op.inputBodyField) := by
  by_cases hf : op.inputBodyField = ""
  · rw [bodyStage, if_pos hf] at h
    simp at h
  · rw [bodyStage, if_neg hf] at h
    refine ⟨hf, ?_⟩
    cases hb : env.bodyResult with
    | some e => rw [hb] at h; simp at h; exact Or.inl h
    | none => rw [hb] at h; simpa using h

/-- Events of the structural-validation stage. -/
theorem validatorStage_mem {op : Op} {env : BindCtx} {ev : Event}
    (h : ev ∈ (validatorStage op env).1) :
    op.hasValidator = true ∧ ev = Event.runValidator := by
  cases hv : op.hasValidator with
  | false => rw [validatorStage, if_neg (by simp [hv])] at h; simp at h
  | true =>
    rw [validatorStage, if_pos (by simp [hv])] at h
    simp at h
    exact ⟨rfl, h⟩

/-- Events of the context-free hook stage. -/
theorem validateStage_mem {op : Op} {env : BindCtx} {ev : Event}
    (h : ev ∈ (validateStage op env).1) :
    op.implValidate = true ∧ ev = Event.runValidate := by
  cases hv : op.implValidate with
  | false => rw [validateStage, if_neg (by simp [hv])] at h; simp at h
  | true =>
    rw [validateStage, if_pos (by simp [hv])] at h
    simp at h
    exact ⟨rfl, h⟩

/-- Events of the context-aware hook stage. -/
theorem validateCtxStage_mem {op : Op} {env : BindCtx} {ev : Event}
    (h : ev ∈ (validateCtxStage op env).1) :
    op.implValidateCtx = true ∧ ev = Event.runValidateCtx := by
  cases hv : op.implValidateCtx with
  | false => rw [validateCtxStage, if_neg (by simp [hv])] at h; simp at h
  | true =>
    rw [validateCtxStage, if_pos (by simp [hv])] at h
    simp at h
    exact ⟨rfl, h⟩

/-- Every event a `bindInput` run can emit, together with the
configuration guard that enables it. -/
theorem mem_bindInput {op : Op} {env : BindCtx} {ev : Event}
    (h : ev ∈ (bindInput op env).1) :
    ev = Event.allocInput ∨ (∃ j, ev = Event.runParser j) ∨
    (op.inputBodyField ≠ "" ∧
      (ev = Event.decodeBody ∨ ev = Event.setBodyField op.inputBodyField)) ∨
    (op.hasValidator = true ∧ ev = Event.runValidator) ∨
    (op.implValidate = true ∧ ev = Event.runValidate) ∨
    (op.implValidateCtx = true ∧ ev = Event.runValidateCtx) ∨
    ev = Event.storeLocal KeyInput ∨ ev = Event.callNext := by
  cases hin : op.input with
  | none =>
    rw [bindInput] at h
    simp only [hin] at h
    simp at h
    exact Or.inr (Or.inr (Or.inr (Or.inr (Or.inr (Or.inr (Or.inr h))))))
  | some t =>
    have h' : ev ∈ Event.allocInput :: (pipelineAfterAlloc op env).1 := by
      rw [bindInput] at h
      simpa only [hin] using h
    rcases List.mem_cons.mp h' with h' | h'
    · exact Or.inl h'
    · rw [pipelineAfterAlloc] at h'
      rcases mem_seqStage h' with h' | h'
      · exact Or.inr (Or.inl (runParsersAux_mem _ _ _ h'))
      · rw [tailStages] at h'
        rcases mem_seqStage h' with h' | h'
        · exact Or.inr (Or.inr (Or.inl (bodyStage_mem h')))
        · rcases mem_seqStage h' with h' | h'
          · exact Or.inr (Or.inr (Or.inr (Or.inl (validatorStage_mem h'))))
          · rcases mem_seqStage h' with h' | h'
            · exact Or.inr (Or.inr (Or.inr (Or.inr (Or.inl (validateStage_mem h')))))
            · rcases mem_seqStage h' with h' | h'
              · exact Or.inr (Or.inr (Or.inr (Or.inr (Or.inr (Or.inl
                  (validateCtxStage_mem h'))))))
              · rw [finalStage] at h'
                rcases List.mem_cons.mp h' with h' | h'
                · exact Or.inr (Or.inr (Or.inr (Or.inr (Or.inr (Or.inr (Or.inl h'))))))
                · simp at h'
                  exact Or.inr (Or.inr (Or.inr (Or.inr (Or.inr (Or.inr (Or.inr h'))))))

/-- The first-match semantics of the SetInput body-field scan. -/
theorem findBodyField_first : ∀ (l1 : List StructField) (f : StructField)
    (l2 : List StructField), (∀ g ∈ l1, g.bodyTag = "") → f.bodyTag ≠ "" →
    findBodyField (l1 ++ f :: l2) = some f := by
  intro l1
  induction l1 with
  | nil =>
    intro f l2 _ hf
    simp [findBodyField, hf]
  | cons g rest ih =>
    intro f l2 hall hf
    have hg : g.bodyTag = "" := hall g (List.mem_cons_self g rest)
    simp only [List.cons_append, findBodyField]
    rw [if_neg (by simp [hg])]
    exact ih f l2 (fun g' h => hall g' (List.mem_cons_of_mem _ h)) hf

/-! ## Claim theorems -/

/-- C1: if any stage of the bindInput pipeline (parameter binding, body
decoding, structural validation, or either self-validation hook)
returns an error, bindInput returns that very error immediately: the
trace contains no event of any later stage, nothing is stored in the
request context, and the chain is never continued, so the user-supplied
handler is never invoked. -/
theorem c1_bindInput_short_circuit (op : Op) (env : BindCtx) (e : String)
    (h : (bindInput op env).2 = some e) :
    Event.callNext ∉ (bindInput op env).1 ∧
    (∀ k, Event.storeLocal k ∉ (bindInput op env).1) ∧
    ∃ ev, ev ∈ (bindInput op env).1 ∧ errOf env ev = some e ∧
      ∀ ev2 ∈ (bindInput op env).1, stageOf ev2 ≤ stageOf ev := by
  cases hin : op.input with
  | none =>
    rw [bindInput] at h
    simp [hin] at h
  | some t =>
    have h2 : (pipelineAfterAlloc op env).2 = some e := by
      rw [bindInput] at h
      simpa only [hin] using h
    obtain ⟨ev, hmem, herr, hmax⟩ := (pipelineAfterAlloc_stageOK op env).2 e h2
    have hbounds := errOf_stage_bounds herr
    have htr : (bindInput op env).1 =
        Event.allocInput :: (pipelineAfterAlloc op env).1 := by
      rw [bindInput]; simp only [hin]
    refine ⟨?_, ?_, ?_⟩
    · rw [htr]
      intro hc
      rcases List.mem_cons.mp hc with hc | hc
      · exact Event.noConfusion hc
      · have h7 := hmax _ hc
        rw [show stageOf Event.callNext = 7 from rfl] at h7
        omega
    · intro k
      rw [htr]
      intro hc
      rcases List.mem_cons.mp hc with hc | hc
      · exact Event.noConfusion hc
      · have h6 := hmax _ hc
        rw [show stageOf (Event.storeLocal k) = 6 from rfl] at h6
        omega
    · refine ⟨ev, ?_, herr, ?_⟩
      · rw [htr]; exact List.mem_cons_of_mem _ hmem
      · rw [htr]
        intro ev2 hc
        rcases List.mem_cons.mp hc with hc | hc
        · subst hc; exact Nat.zero_le _
        · exact hmax ev2 hc

/-- Witness for C1: a failing first parameter decoder never reaches the
chain continuation. -/
theorem c1_witness : Event.callNext ∉ (bindInput opIn envPerr).1 :=
  (c1_bindInput_short_circuit opIn envPerr "boom" rfl).1

/-- C10: when no Input Definition was registered, the pre-handler just
continues the chain: no allocation, no parameter or body binding, no
validation, and nothing stored under the request key. -/
theorem c10_no_input_passthrough (op : Op) (env : BindCtx)
    (h : op.input = none) :
    bindInput op env = ([Event.callNext], none) ∧
    Event.allocInput ∉ (bindInput op env).1 ∧
    (∀ j, Event.runParser j ∉ (bindInput op env).1) ∧
    Event.decodeBody ∉ (bindInput op env).1 ∧
    (∀ f, Event.setBodyField f ∉ (bindInput op env).1) ∧
    Event.runValidator ∉ (bindInput op env).1 ∧
    Event.runValidate ∉ (bindInput op env).1 ∧
    Event.runValidateCtx ∉ (bindInput op env).1 ∧
    (∀ k, Event.storeLocal k ∉ (bindInput op env).1) := by
  have heq : bindInput op env = ([Event.callNext], none) := by
    rw [bindInput]; simp only [h]
  rw [heq]
  exact ⟨rfl, by simp, by simp, by simp, by simp, by simp, by simp, by simp, by simp⟩

/-- Witness for C10 on a builder without input type. -/
theorem c10_witness : bindInput opEmpty envAllOk = ([Event.callNext], none) :=
  (c10_no_input_passthrough opEmpty envAllOk rfl).1

/-- C6: SetInput fails fatally exactly when the input, after
dereferencing all pointer levels, is not a struct; for structs and
pointers to structs this check passes. -/
theorem c6_setInput_struct_check (op : Op) (t : GoType) :
    setInputOk (SetInput op t) = isStructKind (derefPtr t) := by
  cases h : derefPtr t with
  | ptr t2 => simp [SetInput, h, setInputOk, isStructKind]
  | structT fs =>
    cases hb : findBodyField fs <;>
      simp [SetInput, h, hb, setInputOk, isStructKind]
  | other s => simp [SetInput, h, setInputOk, isStructKind]

/-- C2 counterexample: an Input Definition carrying two body-marked
fields is accepted by SetInput with no error, so registration with a
duplicate body field is not fatal. -/
theorem c2_counterexample :
    (twoBodyFields.filter (fun f => f.bodyTag != "")).length = 2 ∧
    setInputOk (SetInput opEmpty (GoType.structT twoBodyFields)) = true :=
  ⟨rfl, rfl⟩

/-- C2 amended: when several fields carry a non-empty body marker,
registration does not fail; SetInput silently designates the first
body-marked field (in declaration order) as the body field and ignores
the rest. -/
theorem c2_first_body_field_wins (op : Op) (l1 l2 : List StructField)
    (f : StructField) (hl1 : ∀ g ∈ l1, g.bodyTag = "") (hf : f.bodyTag ≠ "") :
    ∃ op2, SetInput op (GoType.structT (l1 ++ f :: l2)) = Except.ok op2 ∧
      op2.inputBodyField = f.name ∧ op2.inputBodyMediaType = f.bodyTag ∧
      op2.inputBody = some f.typeName := by
  have hfind := findBodyField_first l1 f l2 hl1 hf
  refine ⟨Op.mk (some (GoType.structT (l1 ++ f :: l2))) (some f.typeName)
    f.bodyTag f.name op.hasValidator op.implValidate op.implValidateCtx,
    ?_, rfl, rfl, rfl⟩
  simp [SetInput, derefPtr, hfind]

/-- Witness for the amended C2 on a definition with two body fields. -/
theorem c2_amended_witness :
    ∃ op2, SetInput opEmpty (GoType.structT
      ([] ++ (⟨"A", "json", "TA"⟩ : StructField) :: [⟨"B", "xml", "TB"⟩])) =
        Except.ok op2 ∧
      op2.inputBodyField = "A" ∧ op2.inputBodyMediaType = "json" ∧
      op2.inputBody = some "TA" :=
  c2_first_body_field_wins opEmpty [] [⟨"B", "xml", "TB"⟩] ⟨"A", "json", "TA"⟩
    (by intro g hg; simp at hg) (by decide)

/-- C5: on a request that passes binding and every configured
validation stage, the validated instance is stored under the single
well-known key "soda::input" exactly once, and only then does control
pass to the next pipeline stage. -/
theorem c5_success_stores_once (op : Op) (env : BindCtx) (t : GoType)
    (hin : op.input = some t) (hok : (bindInput op env).2 = none) :
    KeyInput = "soda::input" ∧
    ∃ pre, (bindInput op env).1 =
      pre ++ [Event.storeLocal KeyInput, Event.callNext] ∧
      (∀ k, Event.storeLocal k ∉ pre) ∧ Event.callNext ∉ pre := by
  have h2 : (pipelineAfterAlloc op env).2 = none := by
    rw [bindInput] at hok
    simpa only [hin] using hok
  rw [pipelineAfterAlloc] at h2
  obtain ⟨hp, htail⟩ := seqStage_none h2
  rw [tailStages] at htail
  obtain ⟨hb, h3⟩ := seqStage_none htail
  obtain ⟨hv, h4⟩ := seqStage_none h3
  obtain ⟨hx, h5⟩ := seqStage_none h4
  obtain ⟨hy, -⟩ := seqStage_none h5
  have htr : (bindInput op env).1 =
      Event.allocInput :: ((runParsersAux env.parserResults 0).1 ++
        ((bodyStage op env).1 ++ ((validatorStage op env).1 ++
        ((validateStage op env).1 ++ ((validateCtxStage op env).1 ++
        finalStage.1))))) := by
    rw [bindInput]
    simp [hin, pipelineAfterAlloc, tailStages, seqStage_ok hp, seqStage_ok hb,
      seqStage_ok hv, seqStage_ok hx, seqStage_ok hy]
  refine ⟨rfl, Event.allocInput :: ((runParsersAux env.parserResults 0).1 ++
    ((bodyStage op env).1 ++ ((validatorStage op env).1 ++
    ((validateStage op env).1 ++ (validateCtxStage op env).1)))), ?_, ?_, ?_⟩
  · rw [htr]
    simp [finalStage, List.append_assoc]
  · intro k hk
    rcases List.mem_cons.mp hk with hk | hk
    · exact Event.noConfusion hk
    rcases List.mem_append.mp hk with hk | hk
    · obtain ⟨j, hj⟩ := runParsersAux_mem _ _ _ hk
      exact Event.noConfusion hj
    rcases List.mem_append.mp hk with hk | hk
    · obtain ⟨-, hj | hj⟩ := bodyStage_mem hk
      · exact Event.noConfusion hj
      · exact Event.noConfusion hj
    rcases List.mem_append.mp hk with hk | hk
    · obtain ⟨-, hj⟩ := validatorStage_mem hk
      exact Event.noConfusion hj
    rcases List.mem_append.mp hk with hk | hk
    · obtain ⟨-, hj⟩ := validateStage_mem hk
      exact Event.noConfusion hj
    · obtain ⟨-, hj⟩ := validateCtxStage_mem hk
      exact Event.noConfusion hj
  · intro hk
    rcases List.mem_cons.mp hk with hk | hk
    · exact Event.noConfusion hk
    rcases List.mem_append.mp hk with hk | hk
    · obtain ⟨j, hj⟩ := runParsersAux_mem _ _ _ hk
      exact Event.noConfusion hj
    rcases List.mem_append.mp hk with hk | hk
    · obtain ⟨-, hj | hj⟩ := bodyStage_mem hk
      · exact Event.noConfusion hj
      · exact Event.noConfusion hj
    rcases List.mem_append.mp hk with hk | hk
    · obtain ⟨-, hj⟩ := validatorStage_mem hk
      exact Event.noConfusion hj
    rcases List.mem_append.mp hk with hk | hk
    · obtain ⟨-, hj⟩ := validateStage_mem hk
      exact Event.noConfusion hj
    · obtain ⟨-, hj⟩ := validateCtxStage_mem hk
      exact Event.noConfusion hj

/-- Witness for C5 on a succeeding request. -/
theorem c5_witness :
    ∃ pre, (bindInput opIn envAllOk).1 =
      pre ++ [Event.storeLocal KeyInput, Event.callNext] ∧
      (∀ k, Event.storeLocal k ∉ pre) ∧ Event.callNext ∉ pre :=
  (c5_success_stores_once opIn envAllOk (GoType.structT []) rfl rfl).2

/-- C4: when the input type implements both self-validation hooks and
the pipeline reaches them (binding succeeded and structural validation
passed or was skipped), the context-free hook runs strictly before the
context-aware hook, and both run only after the structural-validation
stage. -/
theorem c4_hooks_ordered (op : Op) (env : BindCtx) (t : GoType)
    (hin : op.input = some t)
    (hi1 : op.implValidate = true) (hi2 : op.implValidateCtx = true)
    (hp : (runParsersAux env.parserResults 0).2 = none)
    (hb : (bodyStage op env).2 = none)
    (hv : (validatorStage op env).2 = none)
    (hx : env.validateResult = none) :
    ∃ l1 l2, (bindInput op env).1 =
      l1 ++ Event.runValidate :: Event.runValidateCtx :: l2 ∧
      Event.runValidate ∉ l1 ∧ Event.runValidateCtx ∉ l1 ∧
      (op.hasValidator = true → Event.runValidator ∈ l1) := by
  have hxs : validateStage op env = ([Event.runValidate], none) := by
    rw [validateStage, if_pos (by simp [hi1]), hx]
  have hcs : ∃ rest, (seqStage (validateCtxStage op env) finalStage).1 =
      Event.runValidateCtx :: rest := by
    cases hc : env.validateCtxResult with
    | some e => exact ⟨[], by simp [seqStage, validateCtxStage, hi2, hc]⟩
    | none => exact ⟨finalStage.1, by simp [seqStage, validateCtxStage, hi2, hc]⟩
  obtain ⟨rest, hrest⟩ := hcs
  have htr : (bindInput op env).1 =
      Event.allocInput :: ((runParsersAux env.parserResults 0).1 ++
        ((bodyStage op env).1 ++ ((validatorStage op env).1 ++
        (Event.runValidate :: (Event.runValidateCtx :: rest))))) := by
    rw [bindInput]
    simp [hin, pipelineAfterAlloc, tailStages, hxs, hrest, seqStage_ok, hp, hb, hv]
  refine ⟨Event.allocInput :: ((runParsersAux env.parserResults 0).1 ++
    ((bodyStage op env).1 ++ (validatorStage op env).1)), rest, ?_, ?_, ?_, ?_⟩
  · rw [htr]
    simp [List.append_assoc]
  · intro hk
    rcases List.mem_cons.mp hk with hk | hk
    · exact Event.noConfusion hk
    rcases List.mem_append.mp hk with hk | hk
    · obtain ⟨j, hj⟩ := runParsersAux_mem _ _ _ hk
      exact Event.noConfusion hj
    rcases List.mem_append.mp hk with hk | hk
    · obtain ⟨-, hj | hj⟩ := bodyStage_mem hk
      · exact Event.noConfusion hj
      · exact Event.noConfusion hj
    · obtain ⟨-, hj⟩ := validatorStage_mem hk
      exact Event.noConfusion hj
  · intro hk
    rcases List.mem_cons.mp hk with hk | hk
    · exact Event.noConfusion hk
    rcases List.mem_append.mp hk with hk | hk
    · obtain ⟨j, hj⟩ := runParsersAux_mem _ _ _ hk
      exact Event.noConfusion hj
    rcases List.mem_append.mp hk with hk | hk
    · obtain ⟨-, hj | hj⟩ := bodyStage_mem hk
      · exact Event.noConfusion hj
      · exact Event.noConfusion hj
    · obtain ⟨-, hj⟩ := validatorStage_mem hk
      exact Event.noConfusion hj
  · intro hval
    have hmm : Event.runValidator ∈ (validatorStage op env).1 := by
      rw [validatorStage, if_pos (by simp [hval])]
      simp
    exact List.mem_cons_of_mem _
      (List.mem_append.mpr (Or.inr (List.mem_append.mpr (Or.inr hmm))))

/-- Witness for C4 on an input implementing both hooks. -/
theorem c4_witness :
    ∃ l1 l2, (bindInput opHooks envAllOk).1 =
      l1 ++ Event.runValidate :: Event.runValidateCtx :: l2 ∧
      Event.runValidate ∉ l1 ∧ Event.runValidateCtx ∉ l1 ∧
      (opHooks.hasValidator = true → Event.runValidator ∈ l1) :=
  c4_hooks_ordered opHooks envAllOk (GoType.structT []) rfl rfl rfl rfl rfl rfl rfl

/-- C7: when no structural-validation capability is configured the
validation-engine stage never runs at all; when one is configured and
binding succeeds, it is applied to the fully-bound instance before
either self-validation hook. -/
theorem c7_validator_optional (op : Op) (env : BindCtx) :
    (op.hasValidator = false → Event.runValidator ∉ (bindInput op env).1) ∧
    (∀ t, op.input = some t → op.hasValidator = true →
      (runParsersAux env.parserResults 0).2 = none →
      (bodyStage op env).2 = none →
      ∃ l1 l2, (bindInput op env).1 = l1 ++ Event.runValidator :: l2 ∧
        Event.runValidate ∉ l1 ∧ Event.runValidateCtx ∉ l1) := by
  constructor
  · intro hv hmem
    rcases mem_bindInput hmem with h | ⟨j, h⟩ | ⟨-, h | h⟩ | ⟨hv', -⟩ |
      ⟨-, h⟩ | ⟨-, h⟩ | h | h
    · exact Event.noConfusion h
    · exact Event.noConfusion h
    · exact Event.noConfusion h
    · exact Event.noConfusion h
    · rw [hv] at hv'
      exact Bool.noConfusion hv'
    · exact Event.noConfusion h
    · exact Event.noConfusion h
    · exact Event.noConfusion h
    · exact Event.noConfusion h
  · intro t hin hval hp hb
    have hvs : ∃ rest, (seqStage (validatorStage op env)
        (seqStage (validateStage op env)
          (seqStage (validateCtxStage op env) finalStage))).1 =
        Event.runValidator :: rest := by
      cases hr : env.validatorResult with
      | some e => exact ⟨[], by simp [seqStage, validatorStage, hval, hr]⟩
      | none =>
        exact ⟨(seqStage (validateStage op env)
          (seqStage (validateCtxStage op env) finalStage)).1,
          by simp [seqStage, validatorStage, hval, hr]⟩
    obtain ⟨rest, hrest⟩ := hvs
    have htr : (bindInput op env).1 =
        Event.allocInput :: ((runParsersAux env.parserResults 0).1 ++
          ((bodyStage op env).1 ++ (Event.runValidator :: rest))) := by
      rw [bindInput]
      simp [hin, pipelineAfterAlloc, tailStages, hrest, seqStage_ok, hp, hb]
    refine ⟨Event.allocInput :: ((runParsersAux env.parserResults 0).1 ++
      (bodyStage op env).1), rest, ?_, ?_, ?_⟩
    · rw [htr]
      simp [List.append_assoc]
    · intro hk
      rcases List.mem_cons.mp hk with hk | hk
      · exact Event.noConfusion hk
      rcases List.mem_append.mp hk with hk | hk
      · obtain ⟨j, hj⟩ := runParsersAux_mem _ _ _ hk
        exact Event.noConfusion hj
      · obtain ⟨-, hj | hj⟩ := bodyStage_mem hk
        · exact Event.noConfusion hj
        · exact Event.noConfusion hj
    · intro hk
      rcases List.mem_cons.mp hk with hk | hk
      · exact Event.noConfusion hk
      rcases List.mem_append.mp hk with hk | hk
      · obtain ⟨j, hj⟩ := runParsersAux_mem _ _ _ hk
        exact Event.noConfusion hj
      · obtain ⟨-, hj | hj⟩ := bodyStage_mem hk
        · exact Event.noConfusion hj
        · exact Event.noConfusion hj

/-- Witness for C7 on a builder with a configured validator. -/
theorem c7_witness :
    ∃ l1 l2, (bindInput opVal envAllOk).1 = l1 ++ Event.runValidator :: l2 ∧
      Event.runValidate ∉ l1 ∧ Event.runValidateCtx ∉ l1 :=
  (c7_validator_optional opVal envAllOk).2 (GoType.structT []) rfl rfl rfl rfl

/-- C8: without a declared body field the body-binding stage is a
no-op (the payload is never decoded and no field is assigned by that
stage); with one, the payload is decoded and assigned to exactly the
designated field. -/
theorem c8_body_binding_frame (op : Op) (env : BindCtx) :
    (op.inputBodyField = "" →
      Event.decodeBody ∉ (bindInput op env).1 ∧
      ∀ f, Event.setBodyField f ∉ (bindInput op env).1) ∧
    (∀ t, op.input = some t → op.inputBodyField ≠ "" →
      (runParsersAux env.parserResults 0).2 = none → env.bodyResult = none →
      (∃ l1 l2, (bindInput op env).1 =
        l1 ++ Event.decodeBody :: Event.setBodyField op.inputBodyField :: l2) ∧
      ∀ g, Event.setBodyField g ∈ (bindInput op env).1 →
        g = op.inputBodyField) := by
  constructor
  · intro hf
    constructor
    · intro hmem
      rcases mem_bindInput hmem with h | ⟨j, h⟩ | ⟨hne, -⟩ | ⟨-, h⟩ |
        ⟨-, h⟩ | ⟨-, h⟩ | h | h
      · exact Event.noConfusion h
      · exact Event.noConfusion h
      · exact hne hf
      · exact Event.noConfusion h
      · exact Event.noConfusion h
      · exact Event.noConfusion h
      · exact Event.noConfusion h
      · exact Event.noConfusion h
    · intro f hmem
      rcases mem_bindInput hmem with h | ⟨j, h⟩ | ⟨hne, -⟩ | ⟨-, h⟩ |
        ⟨-, h⟩ | ⟨-, h⟩ | h | h
      · exact Event.noConfusion h
      · exact Event.noConfusion h
      · exact hne hf
      · exact Event.noConfusion h
      · exact Event.noConfusion h
      · exact Event.noConfusion h
      · exact Event.noConfusion h
      · exact Event.noConfusion h
  · intro t hin hf hp hbody
    have hbs : bodyStage op env =
        ([Event.decodeBody, Event.setBodyField op.inputBodyField], none) := by
      rw [bodyStage, if_neg hf, hbody]
    constructor
    · have htr : (bindInput op env).1 =
          Event.allocInput :: ((runParsersAux env.parserResults 0).1 ++
            (Event.decodeBody :: Event.setBodyField op.inputBodyField ::
              (seqStage (validatorStage op env) (seqStage (validateStage op env)
                (seqStage (validateCtxStage op env) finalStage))).1)) := by
        rw [bindInput]
        simp [hin, pipelineAfterAlloc, tailStages, hbs, seqStage_ok, hp]
      refine ⟨Event.allocInput :: (runParsersAux env.parserResults 0).1,
        (seqStage (validatorStage op env) (seqStage (validateStage op env)
          (seqStage (validateCtxStage op env) finalStage))).1, ?_⟩
      rw [htr]
      simp [List.append_assoc]
    · intro g hmem
      rcases mem_bindInput hmem with h | ⟨j, h⟩ | ⟨-, h | h⟩ | ⟨-, h⟩ |
        ⟨-, h⟩ | ⟨-, h⟩ | h | h
      · exact Event.noConfusion h
      · exact Event.noConfusion h
      · exact Event.noConfusion h
      · exact Event.setBodyField.inj h
      · exact Event.noConfusion h
      · exact Event.noConfusion h
      · exact Event.noConfusion h
      · exact Event.noConfusion h
      · exact Event.noConfusion h

/-- Witness for C8 on a builder with body field B. -/
theorem c8_witness :
    ∃ l1 l2, (bindInput opBody envAllOk).1 =
      l1 ++ Event.decodeBody :: Event.setBodyField opBody.inputBodyField :: l2 :=
  ((c8_body_binding_frame opBody envAllOk).2 (GoType.structT [⟨"B", "json", "TB"⟩])
    rfl (by decide) rfl rfl).1

/-- An ordering of two occurrences survives prepending a prefix. -/
theorem before_append_left {α : Type} (pre : List α) {x y : α} {l : List α}
    (h : Before x y l) : Before x y (pre ++ l) := by
  obtain ⟨l1, l2, l3, rfl⟩ := h
  exact ⟨pre ++ l1, l2, l3, by simp [List.append_assoc]⟩

/-- Elements of the optional default-response prefix of an OK run. -/
theorem mem_if_adr {b : Bool} {ev : OkEvent}
    (h : ev ∈ (if b then [OkEvent.addDefaultResponse] else [])) :
    ev = OkEvent.addDefaultResponse := by
  cases b with
  | false => simp at h
  | true => simpa using h

/-- C3: on finalization, the operation-level structural check runs
before the whole-document structural check; either failing is fatal
and the route is never added to the router; only when both pass is the
route added, with the binding pre-handler installed ahead of every
user-supplied handler. -/
theorem c3_ok_checks_then_route (hs : List Nat) (env : OkEnv) :
    OkEvent.validateOperation ∈ (okRun hs env).1 ∧
    (OkEvent.validateSpec ∈ (okRun hs env).1 →
      Before OkEvent.validateOperation OkEvent.validateSpec (okRun hs env).1) ∧
    (∀ e, (okRun hs env).2 = OkResult.fatal e →
      OkEvent.addRoute ∉ (okRun hs env).1 ∧
      (env.opValidateErr = some e ∨ env.specValidateErr = some e)) ∧
    (env.opValidateErr = none → env.specValidateErr = none →
      (okRun hs env).2 = OkResult.served (Handler.bindH :: hs.map Handler.user) ∧
      Before OkEvent.validateOperation OkEvent.addRoute (okRun hs env).1 ∧
      Before OkEvent.validateSpec OkEvent.addRoute (okRun hs env).1) ∧
    ((env.opValidateErr ≠ none ∨ env.specValidateErr ≠ none) →
      ∃ e, (okRun hs env).2 = OkResult.fatal e) := by
  cases hop : env.opValidateErr with
  | some e0 =>
    have htr : okRun hs env =
        ((if env.responsesNil then [OkEvent.addDefaultResponse] else []) ++
          [OkEvent.validateOperation], OkResult.fatal e0) := by
      simp [okRun, hop]
    have htr1 : (okRun hs env).1 =
        (if env.responsesNil then [OkEvent.addDefaultResponse] else []) ++
          [OkEvent.validateOperation] := by rw [htr]
    have htr2 : (okRun hs env).2 = OkResult.fatal e0 := by rw [htr]
    refine ⟨?_, ?_, ?_, ?_, ?_⟩
    · rw [htr1]
      exact List.mem_append.mpr (Or.inr (by simp))
    · intro hvs
      exfalso
      rw [htr1] at hvs
      rcases List.mem_append.mp hvs with h | h
      · exact OkEvent.noConfusion (mem_if_adr h)
      · simp at h
    · intro e he
      rw [htr2] at he
      refine ⟨?_, Or.inl ?_⟩
      · rw [htr1]
        intro h
        rcases List.mem_append.mp h with h | h
        · exact OkEvent.noConfusion (mem_if_adr h)
        · simp at h
      · exact congrArg some (OkResult.fatal.inj he)
    · intro h1 _
      exact Option.noConfusion h1
    · intro _
      exact ⟨e0, htr2⟩
  | none =>
    cases hsp : env.specValidateErr with
    | some e0 =>
      have htr : okRun hs env =
          ((if env.responsesNil then [OkEvent.addDefaultResponse] else []) ++
            [OkEvent.validateOperation, OkEvent.addOperationToSpec,
              OkEvent.validateSpec], OkResult.fatal e0) := by
        simp [okRun, hop, hsp]
      have htr1 : (okRun hs env).1 =
          (if env.responsesNil then [OkEvent.addDefaultResponse] else []) ++
            [OkEvent.validateOperation, OkEvent.addOperationToSpec,
              OkEvent.validateSpec] := by rw [htr]
      have htr2 : (okRun hs env).2 = OkResult.fatal e0 := by rw [htr]
      refine ⟨?_, ?_, ?_, ?_, ?_⟩
      · rw [htr1]
        exact List.mem_append.mpr (Or.inr (by simp))
      · intro _
        rw [htr1]
        exact before_append_left _
          ⟨[], [OkEvent.addOperationToSpec], [], by simp⟩
      · intro e he
        rw [htr2] at he
        refine ⟨?_, Or.inr ?_⟩
        · rw [htr1]
          intro h
          rcases List.mem_append.mp h with h | h
          · exact OkEvent.noConfusion (mem_if_adr h)
          · simp at h
        · exact congrArg some (OkResult.fatal.inj he)
      · intro _ h2
        exact Option.noConfusion h2
      · intro _
        exact ⟨e0, htr2⟩
    | none =>
      have htr : okRun hs env =
          ((if env.responsesNil then [OkEvent.addDefaultResponse] else []) ++
            [OkEvent.validateOperation, OkEvent.addOperationToSpec,
              OkEvent.validateSpec, OkEvent.addRoute],
            OkResult.served (Handler.bindH :: hs.map Handler.user)) := by
        simp [okRun, hop, hsp]
      have htr1 : (okRun hs env).1 =
          (if env.responsesNil then [OkEvent.addDefaultResponse] else []) ++
            [OkEvent.validateOperation, OkEvent.addOperationToSpec,
              OkEvent.validateSpec, OkEvent.addRoute] := by rw [htr]
      have htr2 : (okRun hs env).2 =
          OkResult.served (Handler.bindH :: hs.map Handler.user) := by rw [htr]
      refine ⟨?_, ?_, ?_, ?_, ?_⟩
      · rw [htr1]
        exact List.mem_append.mpr (Or.inr (by simp))
      · intro _
        rw [htr1]
        exact before_append_left _
          ⟨[], [OkEvent.addOperationToSpec], [OkEvent.addRoute], by simp⟩
      · intro e he
        rw [htr2] at he
        exact OkResult.noConfusion he
      · intro _ _
        refine ⟨htr2, ?_, ?_⟩
        · rw [htr1]
          exact before_append_left _
            ⟨[], [OkEvent.addOperationToSpec, OkEvent.validateSpec], [], by simp⟩
        · rw [htr1]
          exact before_append_left _
            ⟨[OkEvent.validateOperation, OkEvent.addOperationToSpec], [], [],
              by simp⟩
      · intro h
        rcases h with h | h
        · exact absurd rfl h
        · exact absurd rfl h

/-- Witness for C3 when both structural checks pass. -/
theorem c3_witness :
    (okRun [5] envOkBoth).2 =
      OkResult.served (Handler.bindH :: List.map Handler.user [5]) :=
  ((c3_ok_checks_then_route [5] envOkBoth).2.2.2.1 rfl rfl).1

/-- C9: the schema-name sanitizer keeps exactly the characters in the
class [a-zA-Z0-9._-]: every output character lies in that set, the
output is a subsequence of the input, and every input character in the
set is preserved with its multiplicity, hence in order. -/
theorem c9_sanitizer_exact (s : String) :
    List.Sublist (sanitizeSchemaName s).data s.data ∧
    (∀ c ∈ (sanitizeSchemaName s).data, isSchemaNameChar c = true) ∧
    (∀ c, isSchemaNameChar c = true →
      List.count c (sanitizeSchemaName s).data = List.count c s.data) := by
  refine ⟨?_, ?_, ?_⟩
  · exact List.filter_sublist s.data
  · intro c hc
    have hm : c ∈ s.data.filter isSchemaNameChar := by
      simpa [sanitizeSchemaName] using hc
    exact (List.mem_filter.mp hm).2
  · intro c hc
    show List.count c (s.data.filter isSchemaNameChar) = List.count c s.data
    exact List.count_filter hc

/-- Witness for C9 on a name containing stripped characters. -/
theorem c9_witness :
    List.count 'a' (sanitizeSchemaName "a!b a").data =
      List.count 'a' "a!b a".data :=
  (c9_sanitizer_exact "a!b a").2.2 'a' (by decide)

end Soda
